import Mathlib

set_option maxHeartbeats 1000000

/- Verification of the UI-variant resolution engine and player-event relay
layer of `src/ts/uimanager.ts` (bitmovin-player-ui), via a shallow embedding
of its data model and operations in Lean. -/

/-- The condition context passed to variant condition resolvers
(`UIConditionContext` in `uimanager.ts`).  `adClientType` is nullable in the
source (`string` set to `null` outside ads), hence `Option String`. -/
structure UIConditionContext where
  isAd : Bool
  adClientType : Option String
  isFullscreen : Bool
  isMobile : Bool
  isPlaying : Bool
  width : Nat
  documentWidth : Nat

/-- A UI variant: a layout paired with an optional condition resolver
(`UIVariant` in `uimanager.ts`).  The `id` field stands for the JavaScript
object identity of the variant (reference equality, as used by `indexOf` and
by the `!==` checks in the constructor). -/
structure UIVariant where
  id : Nat
  condition : Option (UIConditionContext → Bool)

/-- One iteration test of the selection loop in `UIManager.resolveUiVariant`:
`uiVariant.condition == null || uiVariant.condition(switchingContext) === true`. -/
def variantMatches (v : UIVariant) (ctx : UIConditionContext) : Bool :=
  match v.condition with
  | none => true
  | some cond => cond ctx

/-- The variant-selection loop of `UIManager.resolveUiVariant`
(`uimanager.ts` lines 370-379): scan `uiVariants` in order, stop at the first
variant whose condition is absent or evaluates to `true`; `null` if none. -/
def selectUiVariant : List UIVariant → UIConditionContext → Option UIVariant
  | [], _ => none
  | v :: rest, ctx =>
    if variantMatches v ctx then some v else selectUiVariant rest ctx

/-- `uiVariantsWithoutCondition` collected by the `UIManager` constructor
(`uimanager.ts` lines 190-198). -/
def uiVariantsWithoutCondition (variants : List UIVariant) : List UIVariant :=
  variants.filter (fun v => v.condition.isNone)

def tooManyDefaultsMsg : String :=
  "Too many UIs without a condition: You cannot have more than one default UI"

def invalidOrderMsg : String :=
  "Invalid UI variant order: the default UI (without condition) must be at the end of the list"

/-- The construction-time validation of the variant list performed by the
`UIManager` constructor (`uimanager.ts` lines 199-211).  The reference
comparison `uiVariantsWithoutCondition[0] !== this.uiVariants[this.uiVariants.length - 1]`
is modelled by comparing variant identities (`id`). -/
def checkUiVariants (variants : List UIVariant) : Except String Unit :=
  let noCond := uiVariantsWithoutCondition variants
  if 1 < noCond.length then
    Except.error tooManyDefaultsMsg
  else if 0 < noCond.length ∧
      (noCond.head?.map UIVariant.id) ≠ (variants.getLast?.map UIVariant.id) then
    Except.error invalidOrderMsg
  else
    Except.ok ()

/-- Sample variant guarded by an ad condition, for concrete evaluations. -/
def adCondVariant : UIVariant := ⟨0, some (fun ctx => ctx.isAd)⟩

/-- Sample condition-less default variant, for concrete evaluations. -/
def defaultUiVariant : UIVariant := ⟨1, none⟩

/-- Sample condition-less variant distinct from `defaultUiVariant`. -/
def secondDefaultUiVariant : UIVariant := ⟨2, none⟩

/-- Sample context outside of ad playback. -/
def ctxNoAd : UIConditionContext := ⟨false, none, false, false, false, 800, 1200⟩

/-- Helper: when the selection loop falls through, every variant failed the
match test. -/
theorem selectUiVariant_eq_none (variants : List UIVariant) (ctx : UIConditionContext)
    (hnone : selectUiVariant variants ctx = none) :
    ∀ v, v ∈ variants → variantMatches v ctx = false := by
  intro v hv
  induction variants with
  | nil => simp at hv
  | cons u rest ih =>
    by_cases hu : variantMatches u ctx
    · simp [selectUiVariant, hu] at hnone
    · simp only [selectUiVariant, hu, if_false] at hnone
      rcases List.mem_cons.mp hv with h | h
      · subst h; simpa using hu
      · exact ih hnone h

/-- C1: For every variant list and every condition context, variant resolution
scans the variants in list order and selects the first variant whose condition
is absent or evaluates to true on the context (so when no conditioned variant
matches, the trailing condition-less default is selected when one exists), and
selects no variant when no variant matches at all. -/
theorem selectUiVariant_first_match (variants : List UIVariant) (ctx : UIConditionContext) :
    (∀ v, selectUiVariant variants ctx = some v →
      variantMatches v ctx = true ∧
      ∃ i, variants.get? i = some v ∧
        ∀ j, j < i → ∀ w, variants.get? j = some w → variantMatches w ctx = false) ∧
    (selectUiVariant variants ctx = none →
      ∀ v, v ∈ variants → variantMatches v ctx = false) ∧
    (∀ front d, variants = front ++ [d] → d.condition = none →
      ∃ v, selectUiVariant variants ctx = some v) := by
  refine ⟨?_, ?_, ?_⟩
  · intro v hv
    induction variants with
    | nil => simp [selectUiVariant] at hv
    | cons u rest ih =>
      by_cases hu : variantMatches u ctx
      · simp only [selectUiVariant, hu, if_true, Option.some.injEq] at hv
        subst hv
        exact ⟨hu, 0, rfl, by omega⟩
      · simp only [selectUiVariant, hu, if_false] at hv
        obtain ⟨hm, i, hi, hfirst⟩ := ih hv
        refine ⟨hm, i + 1, by simpa using hi, ?_⟩
        intro j hj w hw
        match j with
        | 0 =>
          simp only [List.get?] at hw
          cases hw
          simpa using hu
        | k + 1 =>
          exact hfirst k (by omega) w (by simpa using hw)
  · exact selectUiVariant_eq_none variants ctx
  · intro front d hsplit hcond
    cases hsel : selectUiVariant variants ctx with
    | some v => exact ⟨v, rfl⟩
    | none =>
      exfalso
      have hmem : d ∈ variants := by
        subst hsplit; simp
      have := selectUiVariant_eq_none variants ctx hsel d hmem
      simp [variantMatches, hcond] at this

/-- Witness for C1: on `[adCondVariant, defaultUiVariant]` with a non-ad
context, the condition-less trailing default is selected first-match style. -/
theorem selectUiVariant_first_match_witness :
    variantMatches defaultUiVariant ctxNoAd = true ∧
    ∃ i, [adCondVariant, defaultUiVariant].get? i = some defaultUiVariant ∧
      ∀ j, j < i → ∀ w, [adCondVariant, defaultUiVariant].get? j = some w →
        variantMatches w ctxNoAd = false :=
  (selectUiVariant_first_match [adCondVariant, defaultUiVariant] ctxNoAd).1
    defaultUiVariant rfl

/-- C2: constructing a `UIManager` with more than one condition-less variant
throws, and constructing one where a condition-less variant exists but is not
the last element (by object identity) throws; both checks run synchronously in
the constructor, before any resolution. -/
theorem checkUiVariants_throws (variants : List UIVariant) :
    (1 < (uiVariantsWithoutCondition variants).length →
      checkUiVariants variants = Except.error tooManyDefaultsMsg) ∧
    (∀ v w, (uiVariantsWithoutCondition variants).head? = some v →
      variants.getLast? = some w → v.id ≠ w.id →
      ∃ msg, checkUiVariants variants = Except.error msg) := by
  constructor
  · intro h
    simp only [checkUiVariants, h, if_true]
  · intro v w hv hw hne
    unfold checkUiVariants
    by_cases h1 : 1 < (uiVariantsWithoutCondition variants).length
    · exact ⟨tooManyDefaultsMsg, by simp only [h1, if_true]⟩
    · refine ⟨invalidOrderMsg, ?_⟩
      have hlen : 0 < (uiVariantsWithoutCondition variants).length := by
        cases hl : uiVariantsWithoutCondition variants with
        | nil => rw [hl] at hv; simp at hv
        | cons a l => simp [hl]
      have hne' : ((uiVariantsWithoutCondition variants).head?.map UIVariant.id) ≠
          (variants.getLast?.map UIVariant.id) := by
        rw [hv, hw]
        simp [hne]
      rw [if_neg h1, if_pos ⟨hlen, hne'⟩]

/-- Witness for C2: a list with two condition-less variants is rejected, and a
list whose only condition-less variant is not last is rejected. -/
theorem checkUiVariants_throws_witness :
    checkUiVariants [defaultUiVariant, secondDefaultUiVariant] =
      Except.error tooManyDefaultsMsg ∧
    ∃ msg, checkUiVariants [defaultUiVariant, adCondVariant] = Except.error msg := by
  constructor
  · exact (checkUiVariants_throws [defaultUiVariant, secondDefaultUiVariant]).1 (by decide)
  · exact (checkUiVariants_throws [defaultUiVariant, adCondVariant]).2
      defaultUiVariant adCondVariant rfl rfl (by decide)

/-- The player event kinds the UI manager listens to (`player.exports.Event`
members used in `uimanager.ts`), plus a catch-all for other events. -/
inductive PlayerEventType where
  | AdStarted
  | AdFinished
  | AdSkipped
  | AdError
  | SourceLoaded
  | Play
  | Paused
  | PlayerResized
  | ViewModeChanged
  | OtherEvent
deriving DecidableEq

/-- A player event as seen by `resolveUiVariant`; `clientType` is the payload
of `AdStartedEvent` (absent on other events). -/
structure PlayerEvent where
  type : PlayerEventType
  clientType : Option String
deriving DecidableEq

/-- Observable actions performed while switching UI variants, in execution
order.  `configureUi`/`appendDomUi`/`fireSourceLoadedInUI`/`scheduleOnConfigured`
are the steps of `UIManager.addUi`; `hideUi`/`showUi` are the hide/show calls of
`switchToUiVariant`; `fireAdStartedInUI` is the ad-start replay performed by the
`onShow` closure built in the constructor. -/
inductive UIAction where
  | hideUi (i : Nat)
  | configureUi (i : Nat)
  | appendDomUi (i : Nat)
  | fireSourceLoadedInUI (i : Nat)
  | scheduleOnConfigured (i : Nat)
  | fireAdStartedInUI (i : Nat) (ev : PlayerEvent)
  | showUi (i : Nat)
deriving DecidableEq

/-- The variant-switching state of a `UIManager`: the variant list, the
`configured` flag of each `InternalUIInstanceManager` (same index as its
variant, as built by the constructor), and the index of `currentUi`
(`none` for no current UI). -/
structure SwitchState where
  variants : List UIVariant
  configured : List Bool
  currentUi : Option Nat

/-- `Array.prototype.indexOf` on the variant list: first index holding the
given variant (by object identity), `none` (`-1`) when absent. -/
def indexOfAux (v : UIVariant) : List UIVariant → Nat → Option Nat
  | [], _ => none
  | w :: rest, i => if w.id == v.id then some i else indexOfAux v rest (i + 1)

def indexOfVariant (variants : List UIVariant) (v : UIVariant) : Option Nat :=
  indexOfAux v variants 0

/-- `this.uiInstanceManagers[this.uiVariants.indexOf(uiVariant)]` in
`switchToUiVariant` (`uimanager.ts` lines 305-307): a `null`/absent variant or
an out-of-range index yields `undefined`, i.e. no instance manager. -/
def lookupInstanceManager (s : SwitchState) (target : Option UIVariant) : Option Nat :=
  match target with
  | none => none
  | some v =>
    match indexOfVariant s.variants v with
    | some i => if i < s.configured.length then some i else none
    | none => none

/-- The actions of `UIManager.addUi` (`uimanager.ts` lines 388-413):
configure the controls, append the DOM, replay `SourceLoaded` into the UI when
the player already has a source, and schedule the deferred `onConfigured`
dispatch. -/
def addUiActions (i : Nat) (hasSource : Bool) : List UIAction :=
  UIAction.configureUi i :: UIAction.appendDomUi i ::
    ((if hasSource then [UIAction.fireSourceLoadedInUI i] else []) ++
      [UIAction.scheduleOnConfigured i])

/-- `UIManager.switchToUiVariant` (`uimanager.ts` lines 304-342).  Returns the
new state together with the list of observable actions, in order.  `onShow`
is the optional callback, which runs when a switch to an instance happens,
after lazy configuration and before `show()`; it receives the index of the new
current UI (it reads `this.currentUi` in the source).  `hasSource` is the
value of `player.getSource()` truthiness at switch time. -/
def switchToUiVariant (s : SwitchState) (target : Option UIVariant)
    (onShow : Option (Nat → List UIAction)) (hasSource : Bool) :
    SwitchState × List UIAction :=
  let nextUi := lookupInstanceManager s target
  if nextUi = s.currentUi then
    (s, [])
  else
    let hideActs : List UIAction :=
      match s.currentUi with
      | some i => [UIAction.hideUi i]
      | none => []
    match nextUi with
    | none => ({ s with currentUi := none }, hideActs)
    | some i =>
      let isConf := s.configured.getD i false
      let confActs := if isConf then [] else addUiActions i hasSource
      let configured' := if isConf then s.configured else s.configured.set i true
      let onShowActs :=
        match onShow with
        | some f => f i
        | none => []
      ({ s with configured := configured', currentUi := some i },
        hideActs ++ confActs ++ onShowActs ++ [UIAction.showUi i])

/-- Helper: the instance-manager lookup only depends on the variant list and
the number of instance managers. -/
theorem lookupInstanceManager_congr (s s' : SwitchState) (target : Option UIVariant)
    (hv : s'.variants = s.variants) (hl : s'.configured.length = s.configured.length) :
    lookupInstanceManager s' target = lookupInstanceManager s target := by
  cases target with
  | none => rfl
  | some v => simp [lookupInstanceManager, hv, hl]

/-- Helper: a switch preserves the variant list and the number of instance
managers. -/
theorem switchToUiVariant_preserves (s : SwitchState) (target : Option UIVariant)
    (onShow : Option (Nat → List UIAction)) (hasSource : Bool) :
    (switchToUiVariant s target onShow hasSource).1.variants = s.variants ∧
    (switchToUiVariant s target onShow hasSource).1.configured.length =
      s.configured.length := by
  unfold switchToUiVariant
  by_cases h : lookupInstanceManager s target = s.currentUi
  · simp [h]
  · rw [if_neg h]
    cases hn : lookupInstanceManager s target with
    | none => simp
    | some i =>
      constructor
      · simp
      · simp only
        split <;> simp

/-- Helper: after a switch, the current UI is exactly the looked-up target. -/
theorem switchToUiVariant_currentUi (s : SwitchState) (target : Option UIVariant)
    (onShow : Option (Nat → List UIAction)) (hasSource : Bool) :
    (switchToUiVariant s target onShow hasSource).1.currentUi =
      lookupInstanceManager s target := by
  unfold switchToUiVariant
  by_cases h : lookupInstanceManager s target = s.currentUi
  · simp [h]
  · rw [if_neg h]
    cases hn : lookupInstanceManager s target with
    | none => simp
    | some i => simp

/-- C7: switching to the variant whose instance manager is already the current
UI does nothing (no hide, no configure, no onShow, no show), and two successive
switches to the same variant do all switching work at most on the first call. -/
theorem switchToUiVariant_idempotent (s : SwitchState) (target : Option UIVariant)
    (onShow onShow2 : Option (Nat → List UIAction)) (src src2 : Bool) :
    (lookupInstanceManager s target = s.currentUi →
      switchToUiVariant s target onShow src = (s, [])) ∧
    switchToUiVariant (switchToUiVariant s target onShow src).1 target onShow2 src2 =
      ((switchToUiVariant s target onShow src).1, []) := by
  have hsame : ∀ (s' : SwitchState) (f : Option (Nat → List UIAction)) (b : Bool),
      lookupInstanceManager s' target = s'.currentUi →
      switchToUiVariant s' target f b = (s', []) := by
    intro s' f b h
    unfold switchToUiVariant
    simp [h]
  constructor
  · exact hsame s onShow src
  · apply hsame
    obtain ⟨hv, hl⟩ := switchToUiVariant_preserves s target onShow src
    rw [lookupInstanceManager_congr s (switchToUiVariant s target onShow src).1 target hv hl,
      switchToUiVariant_currentUi s target onShow src]

/-- Sample switch state: the ad UI at index 0 (configured), the default UI at
index 1 (unconfigured), currently showing the ad UI. -/
def sampleSwitchState : SwitchState :=
  { variants := [adCondVariant, defaultUiVariant]
    configured := [true, false]
    currentUi := some 0 }

/-- Witness for C7: switching `sampleSwitchState` to its already-current
variant changes nothing and performs no action. -/
theorem switchToUiVariant_idempotent_witness :
    switchToUiVariant sampleSwitchState (some adCondVariant) none true =
      (sampleSwitchState, []) :=
  (switchToUiVariant_idempotent sampleSwitchState (some adCondVariant) none none
    true true).1 rfl

/-- Helper: `indexOf` misses when no list element has the target identity. -/
theorem indexOfAux_eq_none (v : UIVariant) (l : List UIVariant)
    (h : ∀ w, w ∈ l → w.id ≠ v.id) : ∀ n, indexOfAux v l n = none := by
  induction l with
  | nil => intro n; rfl
  | cons w rest ih =>
    intro n
    have hw : (w.id == v.id) = false := by
      simp [h w (List.mem_cons_self w rest)]
    simp only [indexOfAux, hw, if_false]
    exact ih (fun x hx => h x (List.mem_cons_of_mem w hx)) (n + 1)

/-- C10: switching to a variant object that is not an element of the variant
list behaves exactly like switching to no UI: the lookup finds no instance
manager, the current UI (if any) is hidden and cleared, and no configure, show
or onShow work happens (the only possible action is a hide). -/
theorem switchToUiVariant_unknown_variant (s : SwitchState) (v : UIVariant)
    (onShow : Option (Nat → List UIAction)) (src : Bool)
    (h : ∀ w, w ∈ s.variants → w.id ≠ v.id) :
    switchToUiVariant s (some v) onShow src = switchToUiVariant s none onShow src ∧
    (switchToUiVariant s (some v) onShow src).1.currentUi = none ∧
    ∀ a, a ∈ (switchToUiVariant s (some v) onShow src).2 →
      ∃ i, a = UIAction.hideUi i := by
  have hlook : lookupInstanceManager s (some v) = none := by
    simp [lookupInstanceManager, indexOfVariant, indexOfAux_eq_none v s.variants h 0]
  have heq : switchToUiVariant s (some v) onShow src =
      switchToUiVariant s none onShow src := by
    unfold switchToUiVariant
    rw [hlook]
    rfl
  refine ⟨heq, ?_, ?_⟩
  · rw [switchToUiVariant_currentUi, hlook]
  · intro a ha
    rw [heq] at ha
    unfold switchToUiVariant at ha
    by_cases hc : lookupInstanceManager s none = s.currentUi
    · simp [hc] at ha
    · cases hcur : s.currentUi with
      | none => simp [lookupInstanceManager, hcur] at hc
      | some i =>
        simp only [lookupInstanceManager, hcur] at hc ha
        simp only [if_neg hc] at ha
        simp at ha
        exact ⟨i, ha⟩

/-- Sample variant not contained in `sampleSwitchState`. -/
def foreignVariant : UIVariant := ⟨5, none⟩

/-- Witness for C10: switching the sample state to a foreign variant equals
switching to no UI, clears the current UI and at most hides. -/
theorem switchToUiVariant_unknown_variant_witness :
    switchToUiVariant sampleSwitchState (some foreignVariant) none true =
      switchToUiVariant sampleSwitchState none none true ∧
    (switchToUiVariant sampleSwitchState (some foreignVariant) none true).1.currentUi =
      none ∧
    ∀ a, a ∈ (switchToUiVariant sampleSwitchState (some foreignVariant) none true).2 →
      ∃ i, a = UIAction.hideUi i :=
  switchToUiVariant_unknown_variant sampleSwitchState foreignVariant none true
    (by decide)

/-- Helper: a successful instance-manager lookup is in range. -/
theorem lookupInstanceManager_lt (s : SwitchState) (target : Option UIVariant) (i : Nat)
    (h : lookupInstanceManager s target = some i) : i < s.configured.length := by
  cases target with
  | none => simp [lookupInstanceManager] at h
  | some v =>
    simp only [lookupInstanceManager] at h
    cases hidx : indexOfVariant s.variants v with
    | none =>
      rw [hidx] at h
      change (none : Option Nat) = some i at h
      exact absurd h (by simp)
    | some k =>
      rw [hidx] at h
      change (if k < s.configured.length then some k else none) = some i at h
      by_cases hk : k < s.configured.length
      · rw [if_pos hk] at h
        cases h
        exact hk
      · rw [if_neg hk] at h
        exact absurd h (by simp)

/-- Helper: `addUiActions` performs exactly one configuration, of its own UI. -/
theorem count_configureUi_addUiActions (i j : Nat) (src : Bool) :
    (addUiActions j src).count (UIAction.configureUi i) = if j = i then 1 else 0 := by
  by_cases h : j = i
  · subst h
    cases src <;> simp [addUiActions, List.count_cons, List.count_append]
  · cases src <;> simp [addUiActions, List.count_cons, List.count_append, h]

/-- Helper: in one switch (with no onShow callback), the count of
configurations of UI `i` matches the transition of its `configured` flag. -/
theorem switchToUiVariant_configure_step (s : SwitchState) (target : Option UIVariant)
    (src : Bool) (i : Nat) :
    (switchToUiVariant s target none src).2.count (UIAction.configureUi i) +
      (if s.configured.getD i false then 1 else 0) =
    (if (switchToUiVariant s target none src).1.configured.getD i false then 1 else 0) := by
  unfold switchToUiVariant
  by_cases h : lookupInstanceManager s target = s.currentUi
  · simp [h]
  · rw [if_neg h]
    cases hn : lookupInstanceManager s target with
    | none =>
      simp only
      cases s.currentUi <;> simp [List.count_cons]
    | some j =>
      have hj : j < s.configured.length := lookupInstanceManager_lt s target j hn
      by_cases hc : s.configured.getD j false = true
      · simp only [hc, if_true]
        cases s.currentUi <;> simp [List.count_cons, List.count_append]
      · have hcf : s.configured[j]?.getD false = false := by
          rw [List.getD_eq_getElem?_getD] at hc
          exact Bool.not_eq_true _ ▸ (by simpa using hc)
        by_cases hji : j = i
        · subst hji
          cases s.currentUi <;>
            simp [List.count_cons, List.count_append, count_configureUi_addUiActions,
              hc, List.getElem?_set_self hj, hcf]
        · have hji' : j ≠ i := hji
          cases s.currentUi <;>
            simp [List.count_cons, List.count_append, count_configureUi_addUiActions,
              hcf, List.getElem?_set_ne hji', hji]

/-- A sequence of `switchToUiVariant` calls (selections, deselections and
reselections), each given by a target variant (or none) and the source
presence at that moment; the traces are concatenated. -/
def runSwitches (s : SwitchState) : List (Option UIVariant × Bool) → SwitchState × List UIAction
  | [] => (s, [])
  | c :: rest =>
    let r := switchToUiVariant s c.1 none c.2
    let r2 := runSwitches r.1 rest
    (r2.1, r.2 ++ r2.2)

/-- Helper: across a whole switch sequence, the configuration count of UI `i`
matches the transition of its `configured` flag. -/
theorem runSwitches_configure_count (calls : List (Option UIVariant × Bool))
    (s : SwitchState) (i : Nat) :
    (runSwitches s calls).2.count (UIAction.configureUi i) +
      (if s.configured.getD i false then 1 else 0) =
    (if (runSwitches s calls).1.configured.getD i false then 1 else 0) := by
  induction calls generalizing s with
  | nil => simp [runSwitches]
  | cons c rest ih =>
    simp only [runSwitches, List.count_append]
    have h1 := switchToUiVariant_configure_step s c.1 c.2 i
    have h2 := ih (switchToUiVariant s c.1 none c.2).1
    split_ifs at h1 h2 ⊢ <;> omega

/-- C6: across any sequence of selections, deselections and reselections,
each instance manager is configured at most once; once its `configured` flag
is set, a later switch to the same variant never configures it again. -/
theorem configureControls_at_most_once (s : SwitchState)
    (calls : List (Option UIVariant × Bool)) (i : Nat) :
    (runSwitches s calls).2.count (UIAction.configureUi i) ≤ 1 := by
  have h := runSwitches_configure_count calls s i
  split_ifs at h <;> omega

/-- Live player/viewport state read by `resolveUiVariant` when building the
default context (`uimanager.ts` lines 352-362), plus the host queries
`player.ads.isLinearAdActive()` and `player.getSource()` truthiness. -/
structure PlayerProbe where
  isFullscreen : Bool
  isMobile : Bool
  isPlaying : Bool
  width : Nat
  documentWidth : Nat
  isLinearAdActive : Bool
  hasSource : Bool

/-- The ad-start record transition at the top of the constructor closure
`resolveUiVariant` (`uimanager.ts` lines 218-246): store the event on
`AdStarted`; clear on `AdFinished`/`AdSkipped`/`AdError`; on `SourceLoaded`,
clear when a record is set but no linear ad is active; other events (or the
initial `null` event) leave the record unchanged. -/
def updateAdStartedEvent (adStartedEvent : Option PlayerEvent)
    (event : Option PlayerEvent) (isLinearAdActive : Bool) : Option PlayerEvent :=
  match event with
  | none => adStartedEvent
  | some ev =>
    match ev.type with
    | PlayerEventType.AdStarted => some ev
    | PlayerEventType.AdFinished => none
    | PlayerEventType.AdSkipped => none
    | PlayerEventType.AdError => none
    | PlayerEventType.SourceLoaded =>
      if adStartedEvent.isSome && !isLinearAdActive then none else adStartedEvent
    | _ => adStartedEvent

/-- The full switching context used by the closure: the default context built
from live player state, with `isAd`/`adClientType` overridden from the ad
record (`uimanager.ts` lines 248-253 merged into lines 352-365). -/
def closureContext (adEv : Option PlayerEvent) (probe : PlayerProbe) : UIConditionContext :=
  { isAd := adEv.isSome
    adClientType :=
      match adEv with
      | some ev => ev.clientType
      | none => none
    isFullscreen := probe.isFullscreen
    isMobile := probe.isMobile
    isPlaying := probe.isPlaying
    width := probe.width
    documentWidth := probe.documentWidth }

/-- The `UIManager` state relevant to automatic resolution: the switching
state and the persisted `adStartedEvent` record of the constructor closure. -/
structure ManagerState where
  toSwitch : SwitchState
  adStartedEvent : Option PlayerEvent

/-- The `onShow` callback the constructor closure passes into resolution
(`uimanager.ts` lines 254-267): when the context is an ad context (that is,
the ad record is set), replay the stored `AdStarted` event into the newly
current UI via its wrapped player. -/
def adReplayOnShow (adEv : Option PlayerEvent) : Nat → List UIAction :=
  fun i =>
    match adEv with
    | some ev => [UIAction.fireAdStartedInUI i ev]
    | none => []

/-- The constructor closure `resolveUiVariant(event)` composed with the public
`resolveUiVariant` method (`uimanager.ts` lines 221-268 and 352-386), with no
external `onUiVariantResolve` subscribers mutating the context: update the ad
record, build the context, select the variant with the first-match scan, and
switch, passing the ad-replay `onShow` callback. -/
def resolveUiVariantClosure (m : ManagerState) (event : Option PlayerEvent)
    (probe : PlayerProbe) : ManagerState × List UIAction :=
  let adEv := updateAdStartedEvent m.adStartedEvent event probe.isLinearAdActive
  let ctx := closureContext adEv probe
  let nextVariant := selectUiVariant m.toSwitch.variants ctx
  let r := switchToUiVariant m.toSwitch nextVariant
    (some (fun i => if ctx.isAd then adReplayOnShow adEv i else [])) probe.hasSource
  ({ toSwitch := r.1, adStartedEvent := adEv }, r.2)

/-- C4: the persisted ad-start record is set exactly when an `AdStarted` event
is processed, cleared by `AdFinished`/`AdSkipped`/`AdError`, cleared by
`SourceLoaded` while set with no linear ad active, and never newly set by any
other event; consequently, after `AdFinished` the resolution context reports
`isAd = false` and `adClientType = null`. -/
theorem adStartedEvent_transitions (prev : Option PlayerEvent) (ev : PlayerEvent)
    (linear : Bool) (probe : PlayerProbe) :
    (ev.type = PlayerEventType.AdStarted →
      updateAdStartedEvent prev (some ev) linear = some ev) ∧
    (ev.type = PlayerEventType.AdFinished ∨ ev.type = PlayerEventType.AdSkipped ∨
        ev.type = PlayerEventType.AdError →
      updateAdStartedEvent prev (some ev) linear = none) ∧
    (ev.type = PlayerEventType.SourceLoaded → prev.isSome = true → linear = false →
      updateAdStartedEvent prev (some ev) linear = none) ∧
    (ev.type ≠ PlayerEventType.AdStarted →
      ∀ e, updateAdStartedEvent prev (some ev) linear = some e → prev = some e) ∧
    (ev.type = PlayerEventType.AdFinished →
      (closureContext (updateAdStartedEvent prev (some ev) linear) probe).isAd = false ∧
      (closureContext (updateAdStartedEvent prev (some ev) linear) probe).adClientType
        = none) := by
  obtain ⟨t, ct⟩ := ev
  refine ⟨?_, ?_, ?_, ?_, ?_⟩
  · intro h
    subst h
    rfl
  · rintro (h | h | h) <;> subst h <;> rfl
  · intro h hsome hlin
    subst h hlin
    simp [updateAdStartedEvent, hsome]
  · intro h e he
    cases t with
    | AdStarted => exact absurd rfl h
    | AdFinished => exact Option.noConfusion he
    | AdSkipped => exact Option.noConfusion he
    | AdError => exact Option.noConfusion he
    | SourceLoaded =>
      revert he
      change (if prev.isSome && !linear then none else prev) = some e → prev = some e
      intro he
      split at he
      · exact Option.noConfusion he
      · exact he
    | Play => exact he
    | Paused => exact he
    | PlayerResized => exact he
    | ViewModeChanged => exact he
    | OtherEvent => exact he
  · intro h
    subst h
    exact ⟨rfl, rfl⟩

/-- Sample ad-start event. -/
def adStartSample : PlayerEvent := ⟨PlayerEventType.AdStarted, some "ima"⟩

/-- Sample ad-finished event. -/
def adFinishedSample : PlayerEvent := ⟨PlayerEventType.AdFinished, none⟩

/-- Sample source-loaded event. -/
def sourceLoadedSample : PlayerEvent := ⟨PlayerEventType.SourceLoaded, none⟩

/-- Sample probe of live player state. -/
def sampleProbe : PlayerProbe := ⟨false, false, true, 800, 1200, false, true⟩

/-- Witness for C4: concrete ad-record transitions and the resulting non-ad
context after `AdFinished`. -/
theorem adStartedEvent_transitions_witness :
    updateAdStartedEvent none (some adStartSample) false = some adStartSample ∧
    updateAdStartedEvent (some adStartSample) (some adFinishedSample) false = none ∧
    updateAdStartedEvent (some adStartSample) (some sourceLoadedSample) false = none ∧
    (some adStartSample : Option PlayerEvent) = some adStartSample ∧
    (closureContext
        (updateAdStartedEvent (some adStartSample) (some adFinishedSample) false)
        sampleProbe).isAd = false ∧
    (closureContext
        (updateAdStartedEvent (some adStartSample) (some adFinishedSample) false)
        sampleProbe).adClientType = none := by
  refine ⟨?_, ?_, ?_, ?_, ?_, ?_⟩
  · exact (adStartedEvent_transitions none adStartSample false sampleProbe).1 rfl
  · exact (adStartedEvent_transitions (some adStartSample) adFinishedSample false
      sampleProbe).2.1 (Or.inl rfl)
  · exact (adStartedEvent_transitions (some adStartSample) sourceLoadedSample false
      sampleProbe).2.2.1 rfl rfl rfl
  · exact (adStartedEvent_transitions (some adStartSample) sourceLoadedSample true
      sampleProbe).2.2.2.1 (by decide) adStartSample rfl
  · exact ((adStartedEvent_transitions (some adStartSample) adFinishedSample false
      sampleProbe).2.2.2.2 rfl).1
  · exact ((adStartedEvent_transitions (some adStartSample) adFinishedSample false
      sampleProbe).2.2.2.2 rfl).2

/-- Helper: full characterization of a switch that changes to instance `i`. -/
theorem switchToUiVariant_changed (s : SwitchState) (target : Option UIVariant)
    (f : Nat → List UIAction) (src : Bool) (i : Nat)
    (hNext : lookupInstanceManager s target = some i)
    (hChanged : some i ≠ s.currentUi) :
    switchToUiVariant s target (some f) src =
      ({ s with
          configured :=
            if s.configured.getD i false then s.configured else s.configured.set i true,
          currentUi := some i },
        (match s.currentUi with
          | some j => [UIAction.hideUi j]
          | none => []) ++
          (if s.configured.getD i false then [] else addUiActions i src) ++
          f i ++ [UIAction.showUi i]) := by
  unfold switchToUiVariant
  rw [hNext, if_neg hChanged]

/-- C5: when the ad-start record is persisted after processing an event and
the subsequent resolution switches to a (different) UI variant, the newly
current UI receives the `fireEventInUI` replay of the stored `AdStarted`
event during the switch: after the lazy configuration (which happens exactly
when the target was unconfigured) and immediately before `show()`. -/
theorem adStarted_replayed_on_switch (m : ManagerState) (event : Option PlayerEvent)
    (probe : PlayerProbe) (ev : PlayerEvent) (i : Nat)
    (hAd : updateAdStartedEvent m.adStartedEvent event probe.isLinearAdActive = some ev)
    (hNext : lookupInstanceManager m.toSwitch
        (selectUiVariant m.toSwitch.variants (closureContext (some ev) probe)) = some i)
    (hChanged : some i ≠ m.toSwitch.currentUi) :
    (resolveUiVariantClosure m event probe).1.toSwitch.currentUi = some i ∧
    ∃ pre, (resolveUiVariantClosure m event probe).2 =
        pre ++ [UIAction.fireAdStartedInUI i ev, UIAction.showUi i] ∧
      (m.toSwitch.configured.getD i false = false → UIAction.configureUi i ∈ pre) := by
  have hkey := switchToUiVariant_changed m.toSwitch
    (selectUiVariant m.toSwitch.variants (closureContext (some ev) probe))
    (fun k => if (closureContext (some ev) probe).isAd then adReplayOnShow (some ev) k
      else [])
    probe.hasSource i hNext hChanged
  simp only [resolveUiVariantClosure]
  rw [hAd, hkey]
  refine ⟨rfl, ?_⟩
  refine ⟨(match m.toSwitch.currentUi with
      | some j => [UIAction.hideUi j]
      | none => []) ++
    (if m.toSwitch.configured.getD i false then [] else addUiActions i probe.hasSource),
    ?_, ?_⟩
  · simp [adReplayOnShow, closureContext, List.append_assoc]
  · intro hconf
    rw [hconf]
    simp [addUiActions]

/-- Sample manager state: currently showing the default UI at index 1, no ad
record, ad UI at index 0 not yet configured. -/
def sampleManagerState : ManagerState :=
  { toSwitch :=
      { variants := [adCondVariant, defaultUiVariant]
        configured := [false, false]
        currentUi := some 1 }
    adStartedEvent := none }

/-- Witness for C5: processing a concrete `AdStarted` event switches from the
default UI to the ad UI and replays the stored event after configuration and
before show. -/
theorem adStarted_replayed_on_switch_witness :
    (resolveUiVariantClosure sampleManagerState (some adStartSample)
        sampleProbe).1.toSwitch.currentUi = some 0 ∧
    ∃ pre, (resolveUiVariantClosure sampleManagerState (some adStartSample)
          sampleProbe).2 =
        pre ++ [UIAction.fireAdStartedInUI 0 adStartSample, UIAction.showUi 0] ∧
      (sampleManagerState.toSwitch.configured.getD 0 false = false →
        UIAction.configureUi 0 ∈ pre) :=
  adStarted_replayed_on_switch sampleManagerState (some adStartSample) sampleProbe
    adStartSample 0 rfl rfl (by decide)

/-- A field value inside a player event object (events are JavaScript objects
with string keys). -/
inductive FieldVal where
  | natVal (n : Nat)
  | strVal (s : String)
  | boolVal (b : Bool)
deriving DecidableEq

/-- The state of a `PlayerWrapper` (`uimanager.ts` lines 715-837):
`eventHandlers` is the wrapper-side subscription table (a JavaScript object
keyed by event type, holding callback lists in subscription order; callbacks
are identified by reference, modelled as `Nat` identities), and
`hostHandlers` is the multiset (as a list) of subscriptions currently
registered on the host player that were made through this wrapper. -/
structure PlayerWrapperState where
  eventHandlers : List (String × List Nat)
  hostHandlers : List (String × Nat)
deriving DecidableEq

/-- `this.eventHandlers[eventType]`: `none` models the absent key
(`undefined`). -/
def getHandlers (tbl : List (String × List Nat)) (e : String) : Option (List Nat) :=
  (tbl.find? (fun p => p.1 == e)).map Prod.snd

/-- `this.eventHandlers[eventType] = cbs`: update the existing key in place,
or add the key. -/
def putHandlers (tbl : List (String × List Nat)) (e : String) (cbs : List Nat) :
    List (String × List Nat) :=
  if tbl.any (fun p => p.1 == e) then
    tbl.map (fun p => if p.1 == e then (e, cbs) else p)
  else
    tbl ++ [(e, cbs)]

/-- Modelled from the spec: the host player (an external collaborator, spec
section 6) records a subscription on `on`. -/
def hostOn (host : List (String × Nat)) (e : String) (cb : Nat) : List (String × Nat) :=
  host ++ [(e, cb)]

/-- Modelled from the spec: the host player removes a previously registered
subscription on `off` (one matching entry, by callback reference). -/
def hostOff : List (String × Nat) → String → Nat → List (String × Nat)
  | [], _, _ => []
  | p :: rest, e, cb =>
    if p.1 == e && p.2 == cb then rest else p :: hostOff rest e cb

/-- Modelled from the spec: `ArrayUtils.remove` (file `arrayutils.ts` is not
part of the provided sources) removes at most one matching entry, by reference
identity. -/
def removeFirst : List Nat → Nat → List Nat
  | [], _ => []
  | x :: xs, y => if x == y then xs else x :: removeFirst xs y

/-- `wrapper.on` (`uimanager.ts` lines 776-786): forward to the host, then
append the callback to the wrapper table under the event type (creating the
entry if missing). -/
def wrapperOn (s : PlayerWrapperState) (e : String) (cb : Nat) : PlayerWrapperState :=
  { eventHandlers :=
      putHandlers s.eventHandlers e (((getHandlers s.eventHandlers e).getD []) ++ [cb])
    hostHandlers := hostOn s.hostHandlers e cb }

/-- `wrapper.off` (`uimanager.ts` lines 788-797): forward to the host, then
remove the callback from the wrapper table entry when the entry exists. -/
def wrapperOff (s : PlayerWrapperState) (e : String) (cb : Nat) : PlayerWrapperState :=
  { eventHandlers :=
      match getHandlers s.eventHandlers e with
      | none => s.eventHandlers
      | some cbs => putHandlers s.eventHandlers e (removeFirst cbs cb)
    hostHandlers := hostOff s.hostHandlers e cb }

/-- All (event, callback) pairs recorded in the wrapper table, in table
order. -/
def flattenTable (tbl : List (String × List Nat)) : List (String × Nat) :=
  (tbl.map (fun p => p.2.map (fun cb => (p.1, cb)))).flatten

/-- `PlayerWrapper.clearEventHandlers` (`uimanager.ts` lines 830-836): for
every table entry, unsubscribe each of its callbacks from the host player.
The wrapper table itself is left untouched by the source. -/
def clearEventHandlers (s : PlayerWrapperState) : PlayerWrapperState :=
  { eventHandlers := s.eventHandlers
    hostHandlers :=
      s.eventHandlers.foldl
        (fun host p => p.2.foldl (fun h cb => hostOff h p.1 cb) host)
        s.hostHandlers }

/-- The default fields `{timestamp: Date.now(), type: event, uiSourced: true}`
of a UI-sourced player event (`uimanager.ts` lines 801-807); `now` stands for
`Date.now()`. -/
def baseEventFields (e : String) (now : Nat) : List (String × FieldVal) :=
  [("timestamp", FieldVal.natVal now), ("type", FieldVal.strVal e),
    ("uiSourced", FieldVal.boolVal true)]

/-- Value override of one base field by the assigned data, keeping the key. -/
def overrideField (data : List (String × FieldVal)) (p : String × FieldVal) :
    String × FieldVal :=
  match data.find? (fun q => q.1 == p.1) with
  | some q => (p.1, q.2)
  | none => p

/-- `Object.assign({}, base, data)`: base keys in order (values overridden by
`data` where present), followed by the keys only `data` has. -/
def objectAssign (base data : List (String × FieldVal)) : List (String × FieldVal) :=
  base.map (overrideField data) ++
    data.filter (fun q => !(base.any (fun p => p.1 == q.1)))

/-- `wrapper.fireEventInUI` (`uimanager.ts` lines 799-814): if the table has
an entry for the event (JavaScript truthiness: an existing, possibly empty,
array), build the event object and invoke each registered callback with it,
in subscription order.  The host player is never touched, so the wrapper
state is returned unchanged; the second component lists the callback
invocations `(callback, event object)` in order. -/
def fireEventInUI (s : PlayerWrapperState) (e : String) (data : List (String × FieldVal))
    (now : Nat) : PlayerWrapperState × List (Nat × List (String × FieldVal)) :=
  match getHandlers s.eventHandlers e with
  | none => (s, [])
  | some cbs =>
    let playerEventData := objectAssign (baseEventFields e now) data
    (s, cbs.foldl (fun acc cb => acc ++ [(cb, playerEventData)]) [])

/-- Key lookup in an event object. -/
def fieldLookup (obj : List (String × FieldVal)) (k : String) : Option FieldVal :=
  (obj.find? (fun p => p.1 == k)).map Prod.snd

/-- Helper: `find?` over an append scans the left part first. -/
theorem find?_append_cases {α : Type} (l₁ l₂ : List α) (p : α → Bool) :
    (l₁ ++ l₂).find? p =
      match l₁.find? p with
      | some x => some x
      | none => l₂.find? p := by
  induction l₁ with
  | nil => simp
  | cons a l ih =>
    by_cases h : p a
    · simp [List.find?_cons, h]
    · simp [List.find?_cons, h, ih]

/-- Helper: filtering by a weaker predicate does not change `find?`. -/
theorem find?_filter_of_imp {α : Type} (l : List α) (p q : α → Bool)
    (h : ∀ x, p x = true → q x = true) : (l.filter q).find? p = l.find? p := by
  induction l with
  | nil => simp
  | cons a l ih =>
    by_cases hq : q a = true
    · rw [List.filter_cons_of_pos hq]
      by_cases hp : p a = true
      · simp [List.find?_cons, hp]
      · simp [List.find?_cons, hp, ih]
    · rw [List.filter_cons_of_neg (by simpa using hq)]
      have hp : p a = false := by
        cases hpa : p a
        · rfl
        · exact absurd (h a hpa) hq
      simp [List.find?_cons, hp, ih]

/-- Helper: overriding keeps the key. -/
theorem overrideField_fst (data : List (String × FieldVal)) (p : String × FieldVal) :
    (overrideField data p).1 = p.1 := by
  unfold overrideField
  cases data.find? (fun q => q.1 == p.1) <;> rfl

/-- Helper: `find?` by key commutes with the override map (hit case). -/
theorem map_overrideField_find? (base data : List (String × FieldVal)) (k : String)
    (p₀ : String × FieldVal) (hfind : base.find? (fun p => p.1 == k) = some p₀) :
    (base.map (overrideField data)).find? (fun p => p.1 == k) =
      some (overrideField data p₀) := by
  induction base with
  | nil => simp at hfind
  | cons b rest ih =>
    by_cases hb : (b.1 == k) = true
    · rw [List.find?_cons_of_pos rest hb] at hfind
      cases hfind
      simp only [List.map_cons]
      exact List.find?_cons_of_pos _ (by simpa [overrideField_fst] using hb)
    · rw [List.find?_cons_of_neg rest hb] at hfind
      simp only [List.map_cons]
      rw [List.find?_cons_of_neg _ (by simpa [overrideField_fst] using hb)]
      exact ih hfind

/-- Helper: `find?` by key commutes with the override map (miss case). -/
theorem map_overrideField_find?_none (base data : List (String × FieldVal)) (k : String)
    (hfind : base.find? (fun p => p.1 == k) = none) :
    (base.map (overrideField data)).find? (fun p => p.1 == k) = none := by
  rw [List.find?_eq_none] at hfind ⊢
  intro x hx
  obtain ⟨p, hp, rfl⟩ := List.mem_map.mp hx
  simpa [overrideField_fst] using hfind p hp

/-- Helper: key lookup after `Object.assign` is the data value when present,
else the base value. -/
theorem fieldLookup_objectAssign (base data : List (String × FieldVal)) (k : String) :
    fieldLookup (objectAssign base data) k =
      match fieldLookup data k with
      | some v => some v
      | none => fieldLookup base k := by
  unfold objectAssign fieldLookup
  rw [find?_append_cases]
  cases hfind : base.find? (fun p => p.1 == k) with
  | some p₀ =>
    rw [map_overrideField_find? base data k p₀ hfind]
    have hk : p₀.1 = k := by
      have := List.find?_some hfind
      simpa using this
    unfold overrideField
    rw [hk]
    cases hdata : data.find? (fun q => q.1 == k) <;> simp
  | none =>
    rw [map_overrideField_find?_none base data k hfind]
    have hany : base.any (fun p => p.1 == k) = false := by
      rw [List.any_eq_false]
      intro p hp
      exact List.find?_eq_none.mp hfind p hp
    have hfilter : (data.filter (fun q => !(base.any (fun p => p.1 == q.1)))).find?
        (fun p => p.1 == k) = data.find? (fun p => p.1 == k) := by
      apply find?_filter_of_imp
      intro x hx
      have hxk : x.1 = k := by simpa using hx
      simp [hxk, hany]
    rw [hfilter]
    cases hdata : data.find? (fun q => q.1 == k) <;> simp

/-- Helper: the callback invocation loop produces invocations in subscription
order. -/
theorem foldl_invoke_eq_map (cbs : List Nat) (x : List (String × FieldVal))
    (acc : List (Nat × List (String × FieldVal))) :
    cbs.foldl (fun acc cb => acc ++ [(cb, x)]) acc =
      acc ++ cbs.map (fun cb => (cb, x)) := by
  induction cbs generalizing acc with
  | nil => simp
  | cons c rest ih => simp [ih]

/-- C9: `fireEventInUI` never calls into the host player (the wrapper state,
host subscriptions included, is unchanged); when the table has callbacks
registered for the event kind it builds one event object by merging the data
over `{timestamp: now, type: event, uiSourced: true}` (data fields win) and
synchronously invokes each registered callback with it, in subscription
order; with no registered callbacks nothing is invoked. -/
theorem fireEventInUI_spec (s : PlayerWrapperState) (e : String)
    (data : List (String × FieldVal)) (now : Nat) :
    (fireEventInUI s e data now).1 = s ∧
    (getHandlers s.eventHandlers e = none → (fireEventInUI s e data now).2 = []) ∧
    (∀ cbs, getHandlers s.eventHandlers e = some cbs →
      (fireEventInUI s e data now).2 =
        cbs.map (fun cb => (cb, objectAssign (baseEventFields e now) data)) ∧
      (∀ k, fieldLookup (objectAssign (baseEventFields e now) data) k =
        match fieldLookup data k with
        | some v => some v
        | none => fieldLookup (baseEventFields e now) k)) := by
  refine ⟨?_, ?_, ?_⟩
  · unfold fireEventInUI
    cases getHandlers s.eventHandlers e <;> rfl
  · intro h
    simp [fireEventInUI, h]
  · intro cbs h
    constructor
    · simp only [fireEventInUI, h]
      simpa using foldl_invoke_eq_map cbs (objectAssign (baseEventFields e now) data) []
    · intro k
      exact fieldLookup_objectAssign (baseEventFields e now) data k

/-- Sample wrapper state with two subscriptions on `play`. -/
def samplePWState : PlayerWrapperState :=
  { eventHandlers := [("play", [3, 4])], hostHandlers := [("play", 3), ("play", 4)] }

/-- Witness for C9: firing an unsubscribed event invokes nothing; firing
`play` invokes both callbacks in order with the merged event object. -/
theorem fireEventInUI_spec_witness :
    (fireEventInUI samplePWState "paused" [] 5).2 = [] ∧
    (fireEventInUI samplePWState "play" [("custom", FieldVal.natVal 9)] 5).2 =
      [3, 4].map (fun cb => (cb,
        objectAssign (baseEventFields "play" 5) [("custom", FieldVal.natVal 9)])) := by
  constructor
  · exact (fireEventInUI_spec samplePWState "paused" [] 5).2.1 rfl
  · exact ((fireEventInUI_spec samplePWState "play" [("custom", FieldVal.natVal 9)] 5).2.2
      [3, 4] rfl).1

/-- Helper: matching the host unsubscription test pins the pair. -/
theorem hostOff_match_eq (p : String × Nat) (e : String) (cb : Nat)
    (h : (p.1 == e && p.2 == cb) = true) : p = (e, cb) := by
  obtain ⟨a, b⟩ := p
  simp only [Bool.and_eq_true, beq_iff_eq] at h
  simp [h.1, h.2]

/-- Helper: host unsubscription respects permutation of the host list. -/
theorem hostOff_perm (e : String) (cb : Nat) {l₁ l₂ : List (String × Nat)}
    (p : l₁.Perm l₂) : (hostOff l₁ e cb).Perm (hostOff l₂ e cb) := by
  induction p with
  | nil => exact List.Perm.refl _
  | cons x hp ih =>
    by_cases hx : (x.1 == e && x.2 == cb) = true
    · simpa [hostOff, hx] using hp
    · simpa [hostOff, hx] using ih.cons x
  | swap x y l =>
    by_cases hx : (x.1 == e && x.2 == cb) = true <;>
      by_cases hy : (y.1 == e && y.2 == cb) = true
    · rw [hostOff_match_eq x e cb hx, hostOff_match_eq y e cb hy]
    · simp only [hostOff, hx, hy]
      simp
    · simp only [hostOff, hx, hy]
      simp
    · simp only [hostOff, hx, hy]
      exact List.Perm.swap x y (hostOff l e cb)
  | trans _ _ ih₁ ih₂ => exact ih₁.trans ih₂

/-- The sequence of host unsubscriptions for a list of (event, callback)
pairs, in order. -/
def removeSubs (subs : List (String × Nat)) (host : List (String × Nat)) :
    List (String × Nat) :=
  subs.foldl (fun h p => hostOff h p.1 p.2) host

/-- Helper: `removeSubs` splits over append. -/
theorem removeSubs_append (a b : List (String × Nat)) (host : List (String × Nat)) :
    removeSubs (a ++ b) host = removeSubs b (removeSubs a host) := by
  simp [removeSubs, List.foldl_append]

/-- Helper: the per-entry callback loop of `clearEventHandlers` is a
`removeSubs` over the entry flattening. -/
theorem inner_fold_eq_removeSubs (e : String) (cbs : List Nat)
    (host : List (String × Nat)) :
    cbs.foldl (fun h cb => hostOff h e cb) host =
      removeSubs (cbs.map (fun cb => (e, cb))) host := by
  induction cbs generalizing host with
  | nil => rfl
  | cons c rest ih =>
    simp only [removeSubs, List.map_cons, List.foldl_cons]
    exact ih (hostOff host e c)

/-- Helper: flattening a table entry by entry. -/
theorem flattenTable_cons (q : String × List Nat) (rest : List (String × List Nat)) :
    flattenTable (q :: rest) = q.2.map (fun cb => (q.1, cb)) ++ flattenTable rest := by
  simp [flattenTable]

/-- Helper: flattening splits over append. -/
theorem flattenTable_append (a b : List (String × List Nat)) :
    flattenTable (a ++ b) = flattenTable a ++ flattenTable b := by
  simp [flattenTable]

/-- Helper: `clearEventHandlers` performs exactly the host unsubscriptions of
the flattened table, in table order. -/
theorem clearEventHandlers_eq_removeSubs (s : PlayerWrapperState) :
    (clearEventHandlers s).hostHandlers =
      removeSubs (flattenTable s.eventHandlers) s.hostHandlers := by
  suffices h : ∀ (tbl : List (String × List Nat)) (host : List (String × Nat)),
      tbl.foldl (fun host p => p.2.foldl (fun h cb => hostOff h p.1 cb) host) host =
        removeSubs (flattenTable tbl) host by
    exact h s.eventHandlers s.hostHandlers
  intro tbl
  induction tbl with
  | nil => intro host; rfl
  | cons p rest ih =>
    intro host
    simp only [List.foldl_cons]
    rw [ih, inner_fold_eq_removeSubs, ← removeSubs_append, flattenTable_cons]

/-- Helper: removing, one by one, all the pairs of a permutation of the host
list empties the host. -/
theorem removeSubs_perm_nil (subs : List (String × Nat)) :
    ∀ host, host.Perm subs → removeSubs subs host = [] := by
  induction subs with
  | nil =>
    intro host hp
    simp [removeSubs, hp.eq_nil]
  | cons p rest ih =>
    intro host hp
    have h1 : (hostOff host p.1 p.2).Perm (hostOff (p :: rest) p.1 p.2) :=
      hostOff_perm p.1 p.2 hp
    have h2 : hostOff (p :: rest) p.1 p.2 = rest := by
      have hm : (p.1 == p.1 && p.2 == p.2) = true := by simp
      simp [hostOff, hm]
    rw [h2] at h1
    simp only [removeSubs, List.foldl_cons]
    exact ih (hostOff host p.1 p.2) h1

/-- The keys of the wrapper table, in object order. -/
def tableKeys (tbl : List (String × List Nat)) : List String := tbl.map Prod.fst

/-- Helper: an existing table entry makes the key test succeed. -/
theorem getHandlers_any_true (tbl : List (String × List Nat)) (e : String)
    (l : List Nat) (h : getHandlers tbl e = some l) :
    tbl.any (fun p => p.1 == e) = true := by
  unfold getHandlers at h
  cases hf : tbl.find? (fun p => p.1 == e) with
  | none => rw [hf] at h; simp at h
  | some q =>
    rw [List.any_eq_true]
    have hpq : (q.1 == e) = true := by
      have := List.find?_some hf
      simpa using this
    exact ⟨q, List.mem_of_find?_eq_some hf, hpq⟩

/-- Helper: a missing table entry makes the key test fail. -/
theorem getHandlers_any_false (tbl : List (String × List Nat)) (e : String)
    (h : getHandlers tbl e = none) :
    tbl.any (fun p => p.1 == e) = false := by
  unfold getHandlers at h
  cases hf : tbl.find? (fun p => p.1 == e) with
  | some q => rw [hf] at h; simp at h
  | none =>
    rw [List.any_eq_false]
    intro p hp
    exact List.find?_eq_none.mp hf p hp

/-- Helper: table lookup at a matching head. -/
theorem getHandlers_cons_eq (q : String × List Nat) (rest : List (String × List Nat))
    (e : String) (hq : (q.1 == e) = true) : getHandlers (q :: rest) e = some q.2 := by
  unfold getHandlers
  rw [List.find?_cons_of_pos rest hq]
  rfl

/-- Helper: table lookup skips a non-matching head. -/
theorem getHandlers_cons_ne (q : String × List Nat) (rest : List (String × List Nat))
    (e : String) (hq : (q.1 == e) = false) :
    getHandlers (q :: rest) e = getHandlers rest e := by
  unfold getHandlers
  rw [List.find?_cons_of_neg rest (by simp [hq])]

/-- Helper: the update map leaves entries with other keys alone. -/
theorem map_put_id (rest : List (String × List Nat)) (e : String) (L : List Nat)
    (h : rest.any (fun p => p.1 == e) = false) :
    rest.map (fun p => if p.1 == e then (e, L) else p) = rest := by
  induction rest with
  | nil => rfl
  | cons q t ih =>
    rw [List.any_cons, Bool.or_eq_false_iff] at h
    rw [List.map_cons, if_neg (by simp [h.1]), ih h.2]

/-- Helper: updating an existing key rewrites exactly that entry. -/
theorem putHandlers_cons_eq (q : String × List Nat) (rest : List (String × List Nat))
    (e : String) (L : List Nat) (hq : (q.1 == e) = true)
    (hrest : rest.any (fun p => p.1 == e) = false) :
    putHandlers (q :: rest) e L = (e, L) :: rest := by
  have h1 : (q :: rest).any (fun p => p.1 == e) = true := by
    simp [List.any_cons, hq]
  unfold putHandlers
  rw [if_pos h1, List.map_cons, if_pos hq, map_put_id rest e L hrest]

/-- Helper: updating a key deeper in the table keeps the head. -/
theorem putHandlers_cons_ne (q : String × List Nat) (rest : List (String × List Nat))
    (e : String) (L : List Nat) (hq : (q.1 == e) = false)
    (hany : rest.any (fun p => p.1 == e) = true) :
    putHandlers (q :: rest) e L = q :: putHandlers rest e L := by
  have h1 : (q :: rest).any (fun p => p.1 == e) = true := by
    simp [List.any_cons, hq, hany]
  unfold putHandlers
  rw [if_pos h1, if_pos hany, List.map_cons, if_neg (by simp [hq])]

/-- Helper: adding a missing key appends the entry. -/
theorem putHandlers_absent (tbl : List (String × List Nat)) (e : String) (L : List Nat)
    (hany : tbl.any (fun p => p.1 == e) = false) :
    putHandlers tbl e L = tbl ++ [(e, L)] := by
  unfold putHandlers
  rw [if_neg (by simp [hany])]

/-- Helper: with unique keys, entries after a matching head have other keys. -/
theorem rest_any_false_of_nodup (q : String × List Nat)
    (rest : List (String × List Nat)) (e : String) (hq : (q.1 == e) = true)
    (hkeys : (tableKeys (q :: rest)).Nodup) :
    rest.any (fun p => p.1 == e) = false := by
  have hqe : q.1 = e := by simpa using hq
  rw [tableKeys, List.map_cons, List.nodup_cons] at hkeys
  rw [List.any_eq_false]
  intro p hp hpe
  have hpe' : p.1 = e := by simpa using hpe
  exact hkeys.1 (by
    rw [hqe, ← hpe']
    exact List.mem_map_of_mem Prod.fst hp)

/-- Helper: updating an existing key keeps the key list. -/
theorem tableKeys_putHandlers_present (tbl : List (String × List Nat)) (e : String)
    (L : List Nat) (hany : tbl.any (fun p => p.1 == e) = true) :
    tableKeys (putHandlers tbl e L) = tableKeys tbl := by
  unfold putHandlers
  rw [if_pos hany]
  unfold tableKeys
  rw [List.map_map]
  apply List.map_congr_left
  intro p hp
  by_cases hq : (p.1 == e) = true
  · have : p.1 = e := by simpa using hq
    simp [hq, this]
  · simp only [Function.comp]
    rw [if_neg hq]

/-- Helper: adding a missing key appends it to the key list. -/
theorem tableKeys_putHandlers_absent (tbl : List (String × List Nat)) (e : String)
    (L : List Nat) (hany : tbl.any (fun p => p.1 == e) = false) :
    tableKeys (putHandlers tbl e L) = tableKeys tbl ++ [e] := by
  rw [putHandlers_absent tbl e L hany]
  simp [tableKeys]

/-- Helper: appending a fresh key keeps the key list duplicate-free. -/
theorem keys_nodup_after_absent (tbl : List (String × List Nat)) (e : String)
    (hany : tbl.any (fun p => p.1 == e) = false)
    (hkeys : (tableKeys tbl).Nodup) : (tableKeys tbl ++ [e]).Nodup := by
  rw [List.nodup_append]
  refine ⟨hkeys, List.nodup_singleton e, ?_⟩
  intro x hx hxe
  have hxe' : x = e := by simpa using hxe
  subst hxe'
  rw [List.any_eq_false] at hany
  obtain ⟨p, hp, hfst⟩ := List.mem_map.mp hx
  exact hany p hp (by simp [hfst])

/-- Helper: flattened pairs of a table with no entry for `e` have other
keys. -/
theorem flatten_no_key (tbl : List (String × List Nat)) (e : String)
    (hany : tbl.any (fun p => p.1 == e) = false) :
    ∀ q, q ∈ flattenTable tbl → (q.1 == e) = false := by
  induction tbl with
  | nil => intro q hq; simp [flattenTable] at hq
  | cons p rest ih =>
    rw [List.any_cons, Bool.or_eq_false_iff] at hany
    intro q hq
    rw [flattenTable_cons] at hq
    rcases List.mem_append.mp hq with h | h
    · obtain ⟨cb, _, rfl⟩ := List.mem_map.mp h
      exact hany.1
    · exact ih hany.2 q h

/-- Helper: `removeFirst` on an absent callback does nothing. -/
theorem removeFirst_of_not_mem (l : List Nat) (cb : Nat) (h : cb ∉ l) :
    removeFirst l cb = l := by
  induction l with
  | nil => rfl
  | cons x t ih =>
    have hx : (x == cb) = false := by
      simp only [beq_eq_false_iff_ne]
      intro he
      exact h (he ▸ List.mem_cons_self x t)
    simp [removeFirst, hx, ih (fun hm => h (List.mem_cons_of_mem x hm))]

/-- Helper: `removeFirst` removes exactly the first occurrence. -/
theorem removeFirst_decomp (l : List Nat) (cb : Nat) (h : cb ∈ l) :
    ∃ l₁ l₂, l = l₁ ++ cb :: l₂ ∧ cb ∉ l₁ ∧ removeFirst l cb = l₁ ++ l₂ := by
  induction l with
  | nil => simp at h
  | cons x t ih =>
    by_cases hx : x = cb
    · subst hx
      exact ⟨[], t, rfl, by simp, by simp [removeFirst]⟩
    · have hmem : cb ∈ t := by
        rcases List.mem_cons.mp h with h' | h'
        · exact absurd h'.symm hx
        · exact h'
      obtain ⟨l₁, l₂, he, hn, hr⟩ := ih hmem
      refine ⟨x :: l₁, l₂, by rw [he]; rfl, ?_, ?_⟩
      · intro hm
        rcases List.mem_cons.mp hm with h' | h'
        · exact hx h'.symm
        · exact hn h'
      · have hxcb : (x == cb) = false := by simp [hx]
        simp [removeFirst, hxcb, hr]

/-- Helper: host unsubscription skips non-matching entries. -/
theorem hostOff_id_of_no_match (h : List (String × Nat)) (e : String) (cb : Nat)
    (hno : ∀ p, p ∈ h → (p.1 == e && p.2 == cb) = false) : hostOff h e cb = h := by
  induction h with
  | nil => rfl
  | cons q t ih =>
    have hq := hno q (List.mem_cons_self q t)
    simp [hostOff, hq, ih (fun p hp => hno p (List.mem_cons_of_mem q hp))]

/-- Helper: host unsubscription passes over a prefix with no match. -/
theorem hostOff_append_no_match (a b : List (String × Nat)) (e : String) (cb : Nat)
    (hno : ∀ p, p ∈ a → (p.1 == e && p.2 == cb) = false) :
    hostOff (a ++ b) e cb = a ++ hostOff b e cb := by
  induction a with
  | nil => rfl
  | cons q t ih =>
    have hq := hno q (List.mem_cons_self q t)
    simp [hostOff, hq, ih (fun p hp => hno p (List.mem_cons_of_mem q hp))]

/-- Helper: moving a singleton out of the middle of an append is a
permutation. -/
theorem perm_middle_concat {α : Type} (a b c : List α) (x : α) :
    List.Perm (a ++ (b ++ [x] ++ c)) ((a ++ (b ++ c)) ++ [x]) := by
  have h0 : List.Perm ([x] ++ c) (c ++ [x]) := List.perm_append_comm
  have h1 : List.Perm (b ++ ([x] ++ c)) (b ++ (c ++ [x])) :=
    List.Perm.append_left b h0
  have h2 : List.Perm (a ++ (b ++ ([x] ++ c))) (a ++ (b ++ (c ++ [x]))) :=
    List.Perm.append_left a h1
  have e1 : a ++ (b ++ [x] ++ c) = a ++ (b ++ ([x] ++ c)) := by
    simp [List.append_assoc]
  have e2 : (a ++ (b ++ c)) ++ [x] = a ++ (b ++ (c ++ [x])) := by
    simp [List.append_assoc]
  rw [e1, e2]
  exact h2

/-- Helper: a subscription through the wrapper adds exactly one pair to the
flattened table, up to permutation. -/
theorem wrapperOn_flatten_present (tbl : List (String × List Nat)) (e : String)
    (l : List Nat) (cb : Nat) (hkeys : (tableKeys tbl).Nodup)
    (h : getHandlers tbl e = some l) :
    List.Perm (flattenTable (putHandlers tbl e (l ++ [cb])))
      (flattenTable tbl ++ [(e, cb)]) := by
  induction tbl with
  | nil => simp [getHandlers] at h
  | cons q rest ih =>
    by_cases hq : (q.1 == e) = true
    · have hqe : q.1 = e := by simpa using hq
      have hl : q.2 = l := by
        rw [getHandlers_cons_eq q rest e hq] at h
        simpa using h
      have hrest : rest.any (fun p => p.1 == e) = false :=
        rest_any_false_of_nodup q rest e hq hkeys
      rw [putHandlers_cons_eq q rest e (l ++ [cb]) hq hrest]
      rw [flattenTable_cons, flattenTable_cons]
      simp only [List.map_append, List.map_cons, List.map_nil]
      rw [hqe, hl]
      have := perm_middle_concat ([] : List (String × Nat))
        (l.map (fun c => (e, c))) (flattenTable rest) (e, cb)
      simpa using this
    · have hg : getHandlers rest e = some l := by
        rw [getHandlers_cons_ne q rest e (by simpa using hq)] at h
        exact h
      have hany : rest.any (fun p => p.1 == e) = true :=
        getHandlers_any_true rest e l hg
      have hkeys' : (tableKeys rest).Nodup := by
        rw [tableKeys, List.map_cons, List.nodup_cons] at hkeys
        exact hkeys.2
      rw [putHandlers_cons_ne q rest e (l ++ [cb]) (by simpa using hq) hany]
      rw [flattenTable_cons, flattenTable_cons]
      have hperm := List.Perm.append_left (q.2.map (fun c => (q.1, c))) (ih hkeys' hg)
      refine hperm.trans ?_
      rw [← List.append_assoc]

/-- Helper: pairs flattened from the entry of callback list `l` under key `e`
match the unsubscription test only at the callback itself. -/
theorem map_pair_no_match (l : List Nat) (e : String) (cb : Nat) (h : cb ∉ l) :
    ∀ p, p ∈ l.map (fun c => (e, c)) → (p.1 == e && p.2 == cb) = false := by
  intro p hp
  obtain ⟨c, hc, rfl⟩ := List.mem_map.mp hp
  have : (c == cb) = false := by
    simp only [beq_eq_false_iff_ne]
    intro he
    exact h (he ▸ hc)
  simp [this]

/-- Helper: an unsubscription through the wrapper removes exactly one pair
from the flattened table. -/
theorem wrapperOff_flatten (tbl : List (String × List Nat)) (e : String) (cb : Nat)
    (l : List Nat) (hkeys : (tableKeys tbl).Nodup) (h : getHandlers tbl e = some l) :
    hostOff (flattenTable tbl) e cb =
      flattenTable (putHandlers tbl e (removeFirst l cb)) := by
  induction tbl with
  | nil => simp [getHandlers] at h
  | cons q rest ih =>
    by_cases hq : (q.1 == e) = true
    · have hqe : q.1 = e := by simpa using hq
      have hl : q.2 = l := by
        rw [getHandlers_cons_eq q rest e hq] at h
        simpa using h
      have hrest : rest.any (fun p => p.1 == e) = false :=
        rest_any_false_of_nodup q rest e hq hkeys
      rw [putHandlers_cons_eq q rest e (removeFirst l cb) hq hrest]
      rw [flattenTable_cons, flattenTable_cons]
      simp only
      rw [hqe, hl]
      by_cases hmem : cb ∈ l
      · obtain ⟨l₁, l₂, hdec, hn, hr⟩ := removeFirst_decomp l cb hmem
        rw [hr, hdec]
        simp only [List.map_append, List.map_cons]
        rw [List.append_assoc, List.append_assoc]
        rw [hostOff_append_no_match _ _ e cb (map_pair_no_match l₁ e cb hn)]
        congr 1
        have hhead : ((e, cb).1 == e && (e, cb).2 == cb) = true := by simp
        show hostOff ((e, cb) :: (l₂.map (fun c => (e, c)) ++ flattenTable rest)) e cb =
          l₂.map (fun c => (e, c)) ++ flattenTable rest
        simp [hostOff, hhead]
      · rw [removeFirst_of_not_mem l cb hmem]
        apply hostOff_id_of_no_match
        intro p hp
        rcases List.mem_append.mp hp with h' | h'
        · exact map_pair_no_match l e cb hmem p h'
        · have := flatten_no_key rest e hrest p h'
          simp [this]
    · have hg : getHandlers rest e = some l := by
        rw [getHandlers_cons_ne q rest e (by simpa using hq)] at h
        exact h
      have hany : rest.any (fun p => p.1 == e) = true :=
        getHandlers_any_true rest e l hg
      have hkeys' : (tableKeys rest).Nodup := by
        rw [tableKeys, List.map_cons, List.nodup_cons] at hkeys
        exact hkeys.2
      rw [putHandlers_cons_ne q rest e (removeFirst l cb) (by simpa using hq) hany]
      rw [flattenTable_cons, flattenTable_cons]
      rw [hostOff_append_no_match _ _ e cb (by
        intro p hp
        obtain ⟨c, hc, rfl⟩ := List.mem_map.mp hp
        simp [hq])]
      rw [ih hkeys' hg]

/-- The relay invariant (spec section 3): the table keys are unique (it models
a JavaScript object) and the host subscriptions attributable to this wrapper
are exactly the flattened table, up to order. -/
def WrapperInv (s : PlayerWrapperState) : Prop :=
  (tableKeys s.eventHandlers).Nodup ∧
  s.hostHandlers.Perm (flattenTable s.eventHandlers)

/-- Helper: `wrapper.on` preserves the relay invariant. -/
theorem wrapperOn_inv (s : PlayerWrapperState) (e : String) (cb : Nat)
    (h : WrapperInv s) : WrapperInv (wrapperOn s e cb) := by
  obtain ⟨hkeys, hperm⟩ := h
  unfold WrapperInv wrapperOn
  cases hg : getHandlers s.eventHandlers e with
  | none =>
    have hany := getHandlers_any_false _ e hg
    constructor
    · rw [tableKeys_putHandlers_absent _ e _ hany]
      exact keys_nodup_after_absent _ e hany hkeys
    · rw [putHandlers_absent _ e _ hany, flattenTable_append]
      simp only [Option.getD_none, List.nil_append]
      have hflat : flattenTable [(e, [cb])] = [(e, cb)] := rfl
      rw [hflat]
      exact hperm.append_right [(e, cb)]
  | some l =>
    have hany := getHandlers_any_true _ e l hg
    constructor
    · rw [tableKeys_putHandlers_present _ e _ hany]
      exact hkeys
    · have hp := wrapperOn_flatten_present s.eventHandlers e l cb hkeys hg
      have hstep : List.Perm (hostOn s.hostHandlers e cb)
          (flattenTable s.eventHandlers ++ [(e, cb)]) :=
        hperm.append_right [(e, cb)]
      simp only [Option.getD_some]
      exact hstep.trans hp.symm

/-- Helper: `wrapper.off` preserves the relay invariant. -/
theorem wrapperOff_inv (s : PlayerWrapperState) (e : String) (cb : Nat)
    (h : WrapperInv s) : WrapperInv (wrapperOff s e cb) := by
  obtain ⟨hkeys, hperm⟩ := h
  unfold WrapperInv wrapperOff
  cases hg : getHandlers s.eventHandlers e with
  | none =>
    have hany := getHandlers_any_false _ e hg
    constructor
    · exact hkeys
    · have hid : hostOff (flattenTable s.eventHandlers) e cb =
          flattenTable s.eventHandlers := by
        apply hostOff_id_of_no_match
        intro p hp
        have := flatten_no_key _ e hany p hp
        simp [this]
      have := hostOff_perm e cb hperm
      rw [hid] at this
      exact this
  | some l =>
    have hany := getHandlers_any_true _ e l hg
    constructor
    · rw [tableKeys_putHandlers_present _ e _ hany]
      exact hkeys
    · have hoff := wrapperOff_flatten s.eventHandlers e cb l hkeys hg
      have := hostOff_perm e cb hperm
      rw [hoff] at this
      exact this

/-- A subscription-side operation performed through the wrapper. -/
inductive WrapperOp where
  | subOn (e : String) (cb : Nat)
  | subOff (e : String) (cb : Nat)

def applyWrapperOp (s : PlayerWrapperState) : WrapperOp → PlayerWrapperState
  | WrapperOp.subOn e cb => wrapperOn s e cb
  | WrapperOp.subOff e cb => wrapperOff s e cb

/-- A wrapper state reached from a fresh wrapper by a sequence of `on`/`off`
calls. -/
def applyWrapperOps (s : PlayerWrapperState) : List WrapperOp → PlayerWrapperState
  | [] => s
  | op :: rest => applyWrapperOps (applyWrapperOp s op) rest

/-- The state of a freshly constructed `PlayerWrapper`: no table entries, no
host subscriptions attributable to it. -/
def initialWrapperState : PlayerWrapperState := ⟨[], []⟩

/-- Helper: the relay invariant holds in every reachable wrapper state. -/
theorem applyWrapperOps_inv (ops : List WrapperOp) (s : PlayerWrapperState)
    (h : WrapperInv s) : WrapperInv (applyWrapperOps s ops) := by
  induction ops generalizing s with
  | nil => exact h
  | cons op rest ih =>
    cases op with
    | subOn e cb => exact ih _ (wrapperOn_inv s e cb h)
    | subOff e cb => exact ih _ (wrapperOff_inv s e cb h)

/-- Helper: unsubscribing from an empty host leaves it empty. -/
theorem removeSubs_nil_host (subs : List (String × Nat)) :
    removeSubs subs ([] : List (String × Nat)) = [] := by
  induction subs with
  | nil => rfl
  | cons p rest ih =>
    simp only [removeSubs, List.foldl_cons] at ih ⊢
    simpa [hostOff] using ih

/-- Helper: two wrapper states with equal fields are equal. -/
theorem playerWrapperState_ext (a b : PlayerWrapperState)
    (h1 : a.eventHandlers = b.eventHandlers) (h2 : a.hostHandlers = b.hostHandlers) :
    a = b := by
  cases a
  cases b
  cases h1
  cases h2
  rfl

/-- Helper: the invocations of `fireEventInUI` only depend on the wrapper
table. -/
theorem fireEventInUI_snd_congr (s s' : PlayerWrapperState)
    (h : s'.eventHandlers = s.eventHandlers) (e : String)
    (data : List (String × FieldVal)) (now : Nat) :
    (fireEventInUI s' e data now).2 = (fireEventInUI s e data now).2 := by
  unfold fireEventInUI
  rw [h]
  cases getHandlers s.eventHandlers e <;> rfl

/-- C3 (amended): in every wrapper state reachable by `on`/`off` calls,
`clearEventHandlers` unsubscribes from the host every callback subscribed
through the wrapper and still active, leaving zero attributable host
subscriptions; the call is idempotent and safe on an already-cleared relay.
However the wrapper subscription table is NOT emptied, and a later
`fireEventInUI` behaves exactly as before the clear. -/
theorem clearEventHandlers_spec (ops : List WrapperOp) :
    (clearEventHandlers (applyWrapperOps initialWrapperState ops)).hostHandlers = [] ∧
    (clearEventHandlers (applyWrapperOps initialWrapperState ops)).eventHandlers =
      (applyWrapperOps initialWrapperState ops).eventHandlers ∧
    clearEventHandlers (clearEventHandlers (applyWrapperOps initialWrapperState ops)) =
      clearEventHandlers (applyWrapperOps initialWrapperState ops) ∧
    (∀ e data now,
      (fireEventInUI (clearEventHandlers (applyWrapperOps initialWrapperState ops))
        e data now).2 =
      (fireEventInUI (applyWrapperOps initialWrapperState ops) e data now).2) := by
  have hinv : WrapperInv (applyWrapperOps initialWrapperState ops) :=
    applyWrapperOps_inv ops initialWrapperState ⟨List.nodup_nil, List.Perm.refl _⟩
  have hhost : (clearEventHandlers (applyWrapperOps initialWrapperState ops)).hostHandlers
      = [] := by
    rw [clearEventHandlers_eq_removeSubs]
    exact removeSubs_perm_nil _ _ hinv.2
  refine ⟨hhost, rfl, ?_, ?_⟩
  · apply playerWrapperState_ext
    · rfl
    · rw [clearEventHandlers_eq_removeSubs, hhost, removeSubs_nil_host]
  · intro e data now
    exact fireEventInUI_snd_congr (applyWrapperOps initialWrapperState ops)
      (clearEventHandlers (applyWrapperOps initialWrapperState ops)) rfl e data now

/-- Counterexample for C3 as stated: after one subscription and a bulk clear,
the wrapper table is not empty and a subsequent `fireEventInUI` still invokes
the previously registered callback. -/
theorem clearEventHandlers_counterexample :
    (clearEventHandlers (wrapperOn initialWrapperState "play" 7)).eventHandlers ≠ [] ∧
    (fireEventInUI (clearEventHandlers (wrapperOn initialWrapperState "play" 7))
      "play" [] 0).2 ≠ [] := by
  constructor
  · decide
  · decide

/-- A UI component for tree configuration: `id` models JavaScript object
identity (the reference compared by `configuredComponent === component`),
`name` models `constructor.name`, `children` the contained components of a
`Container`. -/
inductive UIComponent where
  | node (id : Nat) (name : String) (children : List UIComponent)

def UIComponent.id : UIComponent → Nat
  | UIComponent.node i _ _ => i

def UIComponent.name : UIComponent → String
  | UIComponent.node _ n _ => n

mutual
/-- Modelled from the spec: `UIUtils.traverseTree` (file `uiutils.ts` is not
part of the provided sources).  Per the spec (section 4.1/4.2), `configure`
"walks the layout component tree depth-first" over the component and the
ordered children of containers; we model the walk as the preorder list of
visited components. -/
def traverseTree : UIComponent → List UIComponent
  | UIComponent.node i n cs => UIComponent.node i n cs :: traverseForest cs

def traverseForest : List UIComponent → List UIComponent
  | [] => []
  | c :: cs => traverseTree c ++ traverseForest cs
end

/-- The error message thrown on a repeated component
(`uimanager.ts` line 660). -/
def circularRefMsg (c : UIComponent) : String :=
  "Circular reference in UI tree: " ++ c.name

/-- The visit loop of `InternalUIInstanceManager.configureControlsTree`
(`uimanager.ts` lines 642-668): for each visited component, throw when it is
already in `configuredComponents` (reference identity), else configure it and
append it. -/
def configureComponents :
    List UIComponent → List UIComponent → Except String (List UIComponent)
  | configured, [] => Except.ok configured
  | configured, c :: rest =>
    if configured.any (fun d => d.id == c.id) then
      Except.error (circularRefMsg c)
    else
      configureComponents (configured ++ [c]) rest

/-- `configureControlsTree` run over the whole tree walk. -/
def configureControlsTree (root : UIComponent) : Except String (List UIComponent) :=
  configureComponents [] (traverseTree root)

/-- The `configured`/`released` flags of an `InternalUIInstanceManager`. -/
structure InstanceManagerFlags where
  configured : Bool
  released : Bool

/-- `InternalUIInstanceManager.configureControls` (`uimanager.ts` lines
633-636): configure the tree, then set `this.configured = true`; a throw from
the tree walk propagates and the flag is never set. -/
def configureControls (ui : UIComponent) (st : InstanceManagerFlags) :
    Except String InstanceManagerFlags :=
  match configureControlsTree ui with
  | Except.error msg => Except.error msg
  | Except.ok _ => Except.ok { st with configured := true }

/-- Helper: a duplicated identity in the remaining visit list forces the walk
to throw, naming a visited component. -/
theorem configureComponents_error (l : List UIComponent) :
    ∀ configured : List UIComponent, (configured.map UIComponent.id).Nodup →
    ¬ ((configured.map UIComponent.id) ++ (l.map UIComponent.id)).Nodup →
    ∃ c, c ∈ l ∧ configureComponents configured l = Except.error (circularRefMsg c) := by
  induction l with
  | nil =>
    intro configured hacc hbad
    exact absurd (by simpa using hacc) hbad
  | cons c rest ih =>
    intro configured hacc hbad
    by_cases hb : configured.any (fun d => d.id == c.id) = true
    · refine ⟨c, List.mem_cons_self c rest, ?_⟩
      have hstep : configureComponents configured (c :: rest) =
          if configured.any (fun d => d.id == c.id) then Except.error (circularRefMsg c)
          else configureComponents (configured ++ [c]) rest := rfl
      rw [hstep, if_pos hb]
    · have hb' : configured.any (fun d => d.id == c.id) = false := by
        simpa using hb
      have hnotin : c.id ∉ configured.map UIComponent.id := by
        intro hmem
        obtain ⟨d, hd, hde⟩ := List.mem_map.mp hmem
        rw [List.any_eq_false] at hb'
        exact hb' d hd (by simp [hde])
      have hacc' : ((configured ++ [c]).map UIComponent.id).Nodup := by
        rw [List.map_append, List.nodup_append]
        refine ⟨hacc, by simp, ?_⟩
        intro x hx hxc
        have : x = c.id := by simpa using hxc
        subst this
        exact hnotin hx
      have hbad' :
          ¬ (((configured ++ [c]).map UIComponent.id) ++ (rest.map UIComponent.id)).Nodup := by
        intro hn
        apply hbad
        have heq : (configured.map UIComponent.id) ++ ((c :: rest).map UIComponent.id) =
            ((configured ++ [c]).map UIComponent.id) ++ (rest.map UIComponent.id) := by
          simp [List.append_assoc]
        rw [heq]
        exact hn
      obtain ⟨c', hc', heq'⟩ := ih (configured ++ [c]) hacc' hbad'
      refine ⟨c', List.mem_cons_of_mem c hc', ?_⟩
      have hstep : configureComponents configured (c :: rest) =
          if configured.any (fun d => d.id == c.id) then Except.error (circularRefMsg c)
          else configureComponents (configured ++ [c]) rest := rfl
      rw [hstep, if_neg hb]
      exact heq'

/-- C8: when the same component instance appears more than once in one UI
tree (the walk visits a duplicated identity), the configuration tree-walk
throws synchronously with an error naming the offending component, and
`configureControls` propagates the error without marking the manager
configured. -/
theorem configureControls_duplicate_throws (ui : UIComponent)
    (st : InstanceManagerFlags)
    (h : ¬ ((traverseTree ui).map UIComponent.id).Nodup) :
    ∃ c, c ∈ traverseTree ui ∧
      configureControlsTree ui = Except.error (circularRefMsg c) ∧
      configureControls ui st = Except.error (circularRefMsg c) := by
  obtain ⟨c, hc, herr⟩ := configureComponents_error (traverseTree ui) []
    (by simp) (by simpa using h)
  have herr2 : configureControlsTree ui = Except.error (circularRefMsg c) := herr
  refine ⟨c, hc, herr2, ?_⟩
  unfold configureControls
  rw [herr2]

/-- Sample child component appearing twice in the sample tree. -/
def duplicatedButton : UIComponent := UIComponent.node 1 "Button" []

/-- Sample tree `{root: [X, X]}` with the same component instance twice. -/
def duplicateTreeRoot : UIComponent :=
  UIComponent.node 0 "UIContainer" [duplicatedButton, duplicatedButton]

/-- Witness for C8: configuring the tree `{root: [X, X]}` fails with a
circular-reference error naming a visited component. -/
theorem configureControls_duplicate_throws_witness :
    ∃ c, c ∈ traverseTree duplicateTreeRoot ∧
      configureControlsTree duplicateTreeRoot = Except.error (circularRefMsg c) ∧
      configureControls duplicateTreeRoot ⟨false, false⟩ =
        Except.error (circularRefMsg c) :=
  configureControls_duplicate_throws duplicateTreeRoot ⟨false, false⟩ (by
    have htree : traverseTree duplicateTreeRoot =
        [duplicateTreeRoot, duplicatedButton, duplicatedButton] := by
      simp [traverseTree, traverseForest, duplicateTreeRoot, duplicatedButton]
    rw [htree]
    simp [duplicateTreeRoot, duplicatedButton, UIComponent.id])
